import Mathlib

/-!
Verification of the `typed-index-collections` crate (`TiVec<K, V>` from
`src/vec.rs`, together with the slice-view, range-adapter and enumeration
support it uses).

The owning vector `TiVec<K, V>` wraps a `Vec<V>` plus a zero-sized phantom
marker for the index type `K`; every method converts the `K` argument to a
`usize` position at the boundary (via the `usize: From<K>` bound) and
forwards to the corresponding `std::vec::Vec` method.  We embed the backing
`Vec<V>` as a `List α` and model each forwarded `std` method by its
documented semantics, with a panic represented as `Option.none`.
-/

namespace TypedIndexCollections

/-- The bound `usize: From<K>` used by `TiVec::insert`, `remove`,
`swap_remove` and `split_off`: the index type `K` converts into a plain
`usize` position. -/
class UsizeFromK (K : Type) where
  intoUsize : K → Nat

/-- The bound `K: From<usize>` used by `TiVec::into_iter_enumerated`:
a plain `usize` position converts into the index type `K`. -/
class KFromUsize (K : Type) where
  fromUsize : Nat → K

/-- A caller-defined index type, as in the crate documentation example
`struct FooId(usize)` deriving `From` and `Into`. -/
structure FooId where
  pos : Nat
deriving DecidableEq

instance : UsizeFromK FooId := ⟨FooId.pos⟩

instance : KFromUsize FooId := ⟨FooId.mk⟩

namespace Vec

/-- Host primitive `Vec::insert(index, element)`: inserts at position
`index`, shifting all elements after it to the right; panics (modelled as
`none`) when `index > len`. -/
def insert {α : Type} (l : List α) (index : Nat) (element : α) : Option (List α) :=
  if index ≤ l.length then some (l.take index ++ element :: l.drop index) else none

/-- Host primitive `Vec::remove(index)`: removes and returns the element at
position `index`, shifting all elements after it to the left; panics
(modelled as `none`) when `index >= len`. -/
def remove {α : Type} (l : List α) (index : Nat) : Option (α × List α) :=
  l[index]?.map (fun a => (a, l.take index ++ l.drop (index + 1)))

/-- Host primitive `Vec::swap_remove(index)`: removes and returns the
element at position `index`, replacing it with the last element; panics
(modelled as `none`) when `index >= len`. -/
def swapRemove {α : Type} (l : List α) (index : Nat) : Option (α × List α) :=
  match l[index]?, l.getLast? with
  | some a, some b => some (a, (l.set index b).dropLast)
  | _, _ => none

/-- Host primitive `Vec::pop()`: removes and returns the last element, or
returns `none` leaving the vector unchanged when it is empty. -/
def pop {α : Type} (l : List α) : Option α × List α :=
  (l.getLast?, l.dropLast)

/-- Host primitive `Vec::append(&mut other)`: moves all elements of `other`
to the back of `self`, leaving `other` empty; the pair is the new
`(self, other)`. -/
def append {α : Type} (l other : List α) : List α × List α :=
  (l ++ other, [])

/-- Host primitive `Vec::split_off(at)`: the vector keeps positions
`[0, at)` and the returned vector holds positions `[at, len)`; panics
(modelled as `none`) when `at > len`.  The pair is
`(remaining self, returned tail)`. -/
def splitOff {α : Type} (l : List α) (at_ : Nat) : Option (List α × List α) :=
  if at_ ≤ l.length then some (l.take at_, l.drop at_) else none

end Vec

/-- The error returned by the host fallible-reservation primitive
`Vec::try_reserve`. -/
inductive TryReserveError where
  | capacityOverflow
  | allocError
deriving DecidableEq

/-- Host primitive `Vec::try_reserve(additional)`: asks the allocator for
capacity for at least `len + additional` elements and returns the
outcome of the allocator as a result value.  The allocator is abstracted as the
function `host` from the requested capacity to an outcome. -/
def Vec.tryReserve {α : Type} (host : Nat → Except TryReserveError Unit)
    (l : List α) (additional : Nat) : Except TryReserveError Unit :=
  host (l.length + additional)

/-- `TiVec<K, V>` from `src/vec.rs`: a wrapper holding the raw `Vec<V>`;
the index type `K` is a phantom type parameter (the `PhantomData` marker
stores no runtime value). -/
structure TiVec (K : Type) (α : Type) where
  raw : List α
deriving DecidableEq

/-- `impl From<Vec<V>> for TiVec<K, V>` (src/vec.rs lines 622-629): adopts
the raw vector. -/
def TiVec.fromVec {K α : Type} (v : List α) : TiVec K α :=
  ⟨v⟩

/-- `impl From<TiVec<K, V>> for Vec<V>` (src/vec.rs lines 631-635): returns
the raw vector. -/
def TiVec.toVec {K α : Type} (v : TiVec K α) : List α :=
  v.raw

/-- `TiVec::len`: forwards to `Vec::len`. -/
def TiVec.len {K α : Type} (v : TiVec K α) : Nat :=
  v.raw.length

/-- `TiSlice<K, V>` from src/slice.rs: the index-typed view of a borrowed
slice, holding the raw slice. -/
structure TiSlice (K : Type) (α : Type) where
  raw : List α
deriving DecidableEq

/-- `TiVec::as_slice`: borrows the raw storage as the index-typed slice
view. -/
def TiVec.asSlice {K α : Type} (v : TiVec K α) : TiSlice K α :=
  ⟨v.raw⟩

/-- Modelled from the spec: `TiSlice::get` lives in src/slice.rs, which is
not under src/; per the spec, checked element access converts the key to
its position and returns the element there, or an absence value when the
position is not less than the length. -/
def TiSlice.get {K α : Type} [UsizeFromK K] (s : TiSlice K α) (k : K) : Option α :=
  s.raw[UsizeFromK.intoUsize k]?

/-- Modelled from the spec: the direct (fatal) element access of the slice
view lives in src/slice.rs, which is not under src/; per the spec, direct
access by a key whose position is not less than the length is fatal
(modelled as `none`), and otherwise returns the element at that
position. -/
def TiSlice.indexAccess {K α : Type} [UsizeFromK K] (s : TiSlice K α) (k : K) : Option α :=
  s.raw[UsizeFromK.intoUsize k]?

/-- The fatal keyed forms named by the error-handling contract: direct
element access, `TiVec::remove` and `TiVec::swap_remove`. -/
inductive FatalForm where
  | access
  | remove
  | swapRemove
deriving DecidableEq

/-- Whether each fatal keyed form has a corresponding checked counterpart
returning an optional absence value, read off the API surface of the
crate.  Direct element access has one: per spec section 4.1 the slice view
offers a checked variant returning an optional reference (slice.rs,
spec-modelled here as `TiSlice.get`).  The removal forms have none:
`TiVec::swap_remove` (src/vec.rs lines 294-300) and `TiVec::remove`
(src/vec.rs lines 321-326) return a bare `V` and panic out of bounds, and
no method of the `TiVec` impl block (src/vec.rs lines 86-550) performs a
keyed removal returning an optional value — the only `Option`-returning
removal, `pop` (src/vec.rs lines 384-387), takes no key and always removes
the last element. -/
def hasCheckedForm : FatalForm → Bool
  | FatalForm.access => true
  | FatalForm.remove => false
  | FatalForm.swapRemove => false

/-- `TiVec::insert(index, element)` (src/vec.rs lines 308-313): converts
the key and forwards to `Vec::insert`. -/
def TiVec.insert {K α : Type} [UsizeFromK K] (v : TiVec K α) (index : K)
    (element : α) : Option (TiVec K α) :=
  (Vec.insert v.raw (UsizeFromK.intoUsize index) element).map (fun l => ⟨l⟩)

/-- `TiVec::remove(index)` (src/vec.rs lines 321-326): converts the key
and forwards to `Vec::remove`. -/
def TiVec.remove {K α : Type} [UsizeFromK K] (v : TiVec K α) (index : K) :
    Option (α × TiVec K α) :=
  (Vec.remove v.raw (UsizeFromK.intoUsize index)).map (fun p => (p.1, ⟨p.2⟩))

/-- `TiVec::swap_remove(index)` (src/vec.rs lines 294-300): converts the
key and forwards to `Vec::swap_remove`. -/
def TiVec.swapRemove {K α : Type} [UsizeFromK K] (v : TiVec K α) (index : K) :
    Option (α × TiVec K α) :=
  (Vec.swapRemove v.raw (UsizeFromK.intoUsize index)).map (fun p => (p.1, ⟨p.2⟩))

/-- `TiVec::pop` (src/vec.rs lines 384-387): forwards to `Vec::pop`. -/
def TiVec.pop {K α : Type} (v : TiVec K α) : Option α × TiVec K α :=
  ((Vec.pop v.raw).1, ⟨(Vec.pop v.raw).2⟩)

/-- `TiVec::append(&mut other)` (src/vec.rs lines 394-397): forwards to
`Vec::append` on the raw vectors; the pair is the new `(self, other)`. -/
def TiVec.append {K α : Type} (v other : TiVec K α) : TiVec K α × TiVec K α :=
  (⟨(Vec.append v.raw other.raw).1⟩, ⟨(Vec.append v.raw other.raw).2⟩)

/-- `TiVec::split_off(at)` (src/vec.rs lines 448-455): converts the key and
forwards to `Vec::split_off`; the pair is `(remaining self, returned)`. -/
def TiVec.splitOff {K α : Type} [UsizeFromK K] (v : TiVec K α) (at_ : K) :
    Option (TiVec K α × TiVec K α) :=
  (Vec.splitOff v.raw (UsizeFromK.intoUsize at_)).map (fun p => (⟨p.1⟩, ⟨p.2⟩))

/-- `TiVec::try_reserve(additional)` (src/vec.rs lines 181-184): forwards
to `Vec::try_reserve` on the raw vector and returns its result
unchanged. -/
def TiVec.tryReserve {K α : Type} (host : Nat → Except TryReserveError Unit)
    (v : TiVec K α) (additional : Nat) : Except TryReserveError Unit :=
  Vec.tryReserve host v.raw additional

/-- `TiVec::into_iter_enumerated` (src/vec.rs lines 540-549): the raw
consuming iterator of the raw vector, enumerated, with each position converted to
`K`; as a sequence, the list of pairs it yields. -/
def TiVec.intoIterEnumerated {K α : Type} [KFromUsize K] (v : TiVec K α) :
    List (K × α) :=
  v.raw.enum.map (fun p => (KFromUsize.fromUsize p.1, p.2))

/-- Reverse enumerated iteration: `Rev` of a double-ended iterator yields
exactly the reversed element sequence, so as a sequence it is the reverse
of the forward enumerated sequence. -/
def TiVec.intoIterEnumeratedRev {K α : Type} [KFromUsize K] (v : TiVec K α) :
    List (K × α) :=
  v.intoIterEnumerated.reverse

/-- Modelled from the spec: the start endpoint of a `K`-typed range
(src/range.rs is not under src/); per the spec it is either unbounded or
an inclusive key. -/
inductive StartBound (K : Type) where
  | unbounded
  | included (k : K)

/-- Modelled from the spec: the end endpoint of a `K`-typed range
(src/range.rs is not under src/); per the spec it is unbounded, an
inclusive key, or an exclusive key. -/
inductive EndBound (K : Type) where
  | unbounded
  | included (k : K)
  | excluded (k : K)

/-- Modelled from the spec: a `K`-typed range, the argument of
`TiRangeBounds<K>` (src/range.rs is not under src/). -/
structure TiRange (K : Type) where
  start : StartBound K
  stop : EndBound K

/-- Modelled from the spec: the range-bounds adapter (src/range.rs is not
under src/) normalizes the `K`-typed endpoints to a half-open plain-integer
range `[start, stop)`: an unbounded start maps to position 0, an unbounded
end maps to the length of the collection at the time of the call, an inclusive
end position `i` maps to `i + 1`, and an exclusive end position maps to
itself. -/
def TiRange.intoRange {K : Type} [UsizeFromK K] (r : TiRange K) (len : Nat) :
    Nat × Nat :=
  (match r.start with
    | StartBound.unbounded => 0
    | StartBound.included k => UsizeFromK.intoUsize k,
   match r.stop with
    | EndBound.unbounded => len
    | EndBound.included k => UsizeFromK.intoUsize k + 1
    | EndBound.excluded k => UsizeFromK.intoUsize k)

/-- `TiVec::drain(range)` (src/vec.rs lines 405-411): resolves the
`K`-typed range once, against the length at the time of the call, and
removes the resolved half-open span, yielding the removed items; panics
(modelled as `none`) when the resolved range is invalid or out of bounds.
The pair is `(drained items, remaining vector)`. -/
def TiVec.drain {K α : Type} [UsizeFromK K] (v : TiVec K α) (r : TiRange K) :
    Option (List α × TiVec K α) :=
  let p := r.intoRange v.len
  if p.1 ≤ p.2 ∧ p.2 ≤ v.len then
    some ((v.raw.drop p.1).take (p.2 - p.1), ⟨v.raw.take p.1 ++ v.raw.drop p.2⟩)
  else none

/-- `TiVec::splice(range, replace_with)` (src/vec.rs lines 513-521):
resolves the `K`-typed range once, against the length at the time of the
call, replaces the resolved half-open span with the replacement elements,
and yields the removed items; panics (modelled as `none`) when the resolved
range is invalid or out of bounds.  The pair is
`(removed items, resulting vector)`. -/
def TiVec.splice {K α : Type} [UsizeFromK K] (v : TiVec K α) (r : TiRange K)
    (replaceWith : List α) : Option (List α × TiVec K α) :=
  let p := r.intoRange v.len
  if p.1 ≤ p.2 ∧ p.2 ≤ v.len then
    some ((v.raw.drop p.1).take (p.2 - p.1),
      ⟨v.raw.take p.1 ++ replaceWith ++ v.raw.drop p.2⟩)
  else none

/-- C1: converting a native `Vec<V>` into the owning `TiVec<K, V>` and
converting back yields a vector equal to the original, element-wise and in
order, for every input vector; the round trip in the other direction is
also the identity. -/
theorem tivec_vec_roundtrip {K α : Type} (l : List α) (v : TiVec K α) :
    TiVec.toVec (TiVec.fromVec l : TiVec K α) = l ∧
    TiVec.fromVec (TiVec.toVec v) = v ∧
    (∀ i : Nat, (TiVec.toVec (TiVec.fromVec l : TiVec K α))[i]? = l[i]?) := by
  refine ⟨rfl, ?_, fun i => rfl⟩
  cases v
  rfl

/-- C2: for a vector of length `n` and an index whose position `i`
satisfies `i ≤ n`, `insert` places the element at position `i`, shifts all
later elements right by one, increases the length by exactly one, and
immediate access at the same index returns the inserted element; when
`i > n` the operation fails with an out-of-bounds condition. -/
theorem tivec_insert_spec {K α : Type} [UsizeFromK K] (v : TiVec K α)
    (k : K) (a : α) :
    (UsizeFromK.intoUsize k ≤ v.len →
      ∃ w : TiVec K α, v.insert k a = some w ∧
        w.len = v.len + 1 ∧
        w.asSlice.get k = some a ∧
        (∀ j : Nat, j < UsizeFromK.intoUsize k → w.raw[j]? = v.raw[j]?) ∧
        w.raw[UsizeFromK.intoUsize k]? = some a ∧
        (∀ j : Nat, UsizeFromK.intoUsize k ≤ j → w.raw[j + 1]? = v.raw[j]?)) ∧
    (v.len < UsizeFromK.intoUsize k → v.insert k a = none) := by
  constructor
  · intro h
    set i := UsizeFromK.intoUsize k with hidef
    have h' : i ≤ v.raw.length := h
    have htake : (v.raw.take i).length = i := by
      simp [List.length_take]
      omega
    have hat : (v.raw.take i ++ a :: v.raw.drop i)[i]? = some a := by
      rw [List.getElem?_append_right (by omega)]
      rw [htake]
      simp
    refine ⟨⟨v.raw.take i ++ a :: v.raw.drop i⟩, ?_, ?_, ?_, ?_, hat, ?_⟩
    · simp [TiVec.insert, Vec.insert, h']
    · simp [TiVec.len, List.length_take, List.length_drop]
      omega
    · exact hat
    · intro j hj
      show (v.raw.take i ++ a :: v.raw.drop i)[j]? = v.raw[j]?
      rw [List.getElem?_append_left (by omega)]
      exact List.getElem?_take_of_lt hj
    · intro j hj
      show (v.raw.take i ++ a :: v.raw.drop i)[j + 1]? = v.raw[j]?
      rw [List.getElem?_append_right (by omega)]
      rw [htake]
      have hsub : j + 1 - i = (j - i) + 1 := by omega
      rw [hsub, List.getElem?_cons_succ, List.getElem?_drop]
      congr 1
      omega
  · intro h
    have h' : ¬ (UsizeFromK.intoUsize k ≤ v.raw.length) := by
      have : v.raw.length < UsizeFromK.intoUsize k := h
      omega
    simp [TiVec.insert, Vec.insert, h']

/-- C2 witness: on `[10, 11, 13]` under `FooId`, `insert(FooId(2), 12)`
succeeds, the length becomes 4 and access at `FooId(2)` returns 12;
concretely the resulting vector is `[10, 11, 12, 13]`. -/
theorem tivec_insert_spec_witness :
    (∃ w : TiVec FooId Nat,
      (TiVec.fromVec [10, 11, 13] : TiVec FooId Nat).insert ⟨2⟩ 12 = some w ∧
      w.len = 4 ∧ w.asSlice.get ⟨2⟩ = some 12) ∧
    (TiVec.fromVec [10, 11, 13] : TiVec FooId Nat).insert ⟨2⟩ 12 =
      some (TiVec.fromVec [10, 11, 12, 13]) := by
  constructor
  · obtain ⟨w, h1, h2, h3, _⟩ :=
      (tivec_insert_spec (TiVec.fromVec [10, 11, 13] : TiVec FooId Nat)
        ⟨2⟩ 12).1 (by decide)
    refine ⟨w, h1, ?_, h3⟩
    rw [h2]
    decide
  · decide

/-- C3: for a vector of length `n` and an index whose position `i`
satisfies `i < n`, `remove` returns the element previously stored at
position `i`, shifts all later elements left by one, and decreases the
length by exactly one. -/
theorem tivec_remove_spec {K α : Type} [UsizeFromK K] (v : TiVec K α)
    (k : K) (h : UsizeFromK.intoUsize k < v.len) :
    ∃ x w, v.remove k = some (x, w) ∧
      v.raw[UsizeFromK.intoUsize k]? = some x ∧
      w.len + 1 = v.len ∧
      (∀ j : Nat, j < UsizeFromK.intoUsize k → w.raw[j]? = v.raw[j]?) ∧
      (∀ j : Nat, UsizeFromK.intoUsize k ≤ j → w.raw[j]? = v.raw[j + 1]?) := by
  set i := UsizeFromK.intoUsize k with hidef
  have h' : i < v.raw.length := h
  have htake : (v.raw.take i).length = i := by
    simp [List.length_take]
    omega
  have hx : v.raw[i]? = some (v.raw.get ⟨i, h'⟩) := by
    simp [List.getElem?_eq_getElem h', List.get_eq_getElem]
  refine ⟨v.raw.get ⟨i, h'⟩, ⟨v.raw.take i ++ v.raw.drop (i + 1)⟩, ?_, hx, ?_, ?_, ?_⟩
  · simp [TiVec.remove, Vec.remove, hx]
  · simp [TiVec.len, List.length_take, List.length_drop]
    omega
  · intro j hj
    show (v.raw.take i ++ v.raw.drop (i + 1))[j]? = v.raw[j]?
    rw [List.getElem?_append_left (by omega)]
    exact List.getElem?_take_of_lt hj
  · intro j hj
    show (v.raw.take i ++ v.raw.drop (i + 1))[j]? = v.raw[j + 1]?
    rw [List.getElem?_append_right (by omega)]
    rw [htake, List.getElem?_drop]
    congr 1
    omega

/-- C3 witness: `remove(FooId(1))` on `[10, 11, 13]` returns the element
previously stored at position 1 and shrinks the length by one; concretely
it returns 11 leaving `[10, 13]`. -/
theorem tivec_remove_spec_witness :
    (∃ x w, (TiVec.fromVec [10, 11, 13] : TiVec FooId Nat).remove ⟨1⟩ = some (x, w) ∧
      (TiVec.fromVec [10, 11, 13] : TiVec FooId Nat).raw[1]? = some x ∧
      w.len + 1 = (TiVec.fromVec [10, 11, 13] : TiVec FooId Nat).len) ∧
    (TiVec.fromVec [10, 11, 13] : TiVec FooId Nat).remove ⟨1⟩ =
      some (11, TiVec.fromVec [10, 13]) := by
  refine ⟨?_, by decide⟩
  obtain ⟨x, w, h1, h2, h3, _, _⟩ :=
    tivec_remove_spec (TiVec.fromVec [10, 11, 13] : TiVec FooId Nat) ⟨1⟩ (by decide)
  exact ⟨x, w, h1, h2, h3⟩

/-- C4 counterexample: the claim as stated is false.  At the concrete
fatal form `remove` (and likewise `swap_remove`), the operation is fatal
at an out-of-bounds key on a concrete vector, yet the crate provides no
corresponding checked form returning an optional absence value
(`hasCheckedForm` is `false` there), so the conjunct that every fatal form
has a checked counterpart fails. -/
theorem tivec_oob_checked_counterpart_counterexample :
    (TiVec.fromVec [10, 11] : TiVec FooId Nat).remove ⟨5⟩ = none ∧
    (TiVec.fromVec [10, 11] : TiVec FooId Nat).swapRemove ⟨5⟩ = none ∧
    hasCheckedForm FatalForm.remove = false ∧
    hasCheckedForm FatalForm.swapRemove = false ∧
    ¬ (∀ f : FatalForm, hasCheckedForm f = true) :=
  ⟨by decide, by decide, rfl, rfl,
   fun h => absurd (h FatalForm.remove) (by decide)⟩

/-- C4 (amended): for every index whose position is at least the current
length (including on an empty vector), direct access and the removal
operations `remove` and `swap_remove` are fatal (modelled as `none`); the
fatal direct access form has a corresponding checked form, the checked
access of the slice view, which returns the absence value `none` instead,
while the fatal removal forms have no checked counterparts in the
crate. -/
theorem tivec_oob_access_spec {K α : Type} [UsizeFromK K] (v : TiVec K α)
    (k : K) (h : v.len ≤ UsizeFromK.intoUsize k) :
    v.asSlice.indexAccess k = none ∧
    v.asSlice.get k = none ∧
    v.remove k = none ∧
    v.swapRemove k = none ∧
    hasCheckedForm FatalForm.access = true ∧
    hasCheckedForm FatalForm.remove = false ∧
    hasCheckedForm FatalForm.swapRemove = false := by
  have h' : v.raw.length ≤ UsizeFromK.intoUsize k := h
  have hnone : v.raw[UsizeFromK.intoUsize k]? = none := List.getElem?_eq_none h'
  refine ⟨?_, ?_, ?_, ?_, rfl, rfl, rfl⟩
  · simp [TiSlice.indexAccess, TiVec.asSlice, hnone]
  · simp [TiSlice.get, TiVec.asSlice, hnone]
  · simp [TiVec.remove, Vec.remove, hnone]
  · simp [TiVec.swapRemove, Vec.swapRemove, hnone]

/-- C4 witness: on the empty vector at `FooId(0)` and on `[10, 11]` at
`FooId(5)`, direct access, `remove` and `swap_remove` are fatal, checked
access returns `none`, and only the access form has a checked
counterpart. -/
theorem tivec_oob_access_spec_witness :
    ((TiVec.fromVec ([] : List Nat) : TiVec FooId Nat).asSlice.indexAccess ⟨0⟩ = none ∧
     (TiVec.fromVec ([] : List Nat) : TiVec FooId Nat).asSlice.get ⟨0⟩ = none ∧
     (TiVec.fromVec ([] : List Nat) : TiVec FooId Nat).remove ⟨0⟩ = none ∧
     (TiVec.fromVec ([] : List Nat) : TiVec FooId Nat).swapRemove ⟨0⟩ = none ∧
     hasCheckedForm FatalForm.access = true ∧
     hasCheckedForm FatalForm.remove = false ∧
     hasCheckedForm FatalForm.swapRemove = false) ∧
    ((TiVec.fromVec [10, 11] : TiVec FooId Nat).asSlice.indexAccess ⟨5⟩ = none ∧
     (TiVec.fromVec [10, 11] : TiVec FooId Nat).asSlice.get ⟨5⟩ = none ∧
     (TiVec.fromVec [10, 11] : TiVec FooId Nat).remove ⟨5⟩ = none ∧
     (TiVec.fromVec [10, 11] : TiVec FooId Nat).swapRemove ⟨5⟩ = none ∧
     hasCheckedForm FatalForm.access = true ∧
     hasCheckedForm FatalForm.remove = false ∧
     hasCheckedForm FatalForm.swapRemove = false) :=
  ⟨tivec_oob_access_spec (TiVec.fromVec ([] : List Nat) : TiVec FooId Nat) ⟨0⟩ (by decide),
   tivec_oob_access_spec (TiVec.fromVec [10, 11] : TiVec FooId Nat) ⟨5⟩ (by decide)⟩

/-- C5: enumerated consuming iteration over a vector of length `n` yields
exactly `n` pairs, the `i`-th being the position `i` converted to `K`
paired with the `i`-th element, in insertion order; reverse enumerated
iteration yields the same pairs in reverse order. -/
theorem tivec_into_iter_enumerated_spec {K α : Type} [KFromUsize K]
    (v : TiVec K α) :
    v.intoIterEnumerated.length = v.len ∧
    (∀ i : Nat, v.intoIterEnumerated[i]? =
      v.raw[i]?.map (fun a => (KFromUsize.fromUsize i, a))) ∧
    (∀ i : Nat, i < v.len → v.intoIterEnumeratedRev[i]? =
      v.raw[v.len - 1 - i]?.map
        (fun a => (KFromUsize.fromUsize (v.len - 1 - i), a))) := by
  have hfwd : ∀ i : Nat, v.intoIterEnumerated[i]? =
      v.raw[i]?.map (fun a => (KFromUsize.fromUsize i, a)) := by
    intro i
    simp [TiVec.intoIterEnumerated, List.getElem?_map, List.getElem?_enum]
    cases v.raw[i]? <;> simp
  have hlen : v.intoIterEnumerated.length = v.len := by
    simp [TiVec.intoIterEnumerated, TiVec.len]
  refine ⟨hlen, hfwd, ?_⟩
  intro i hi
  have hi' : i < v.intoIterEnumerated.length := by
    rw [hlen]
    exact hi
  rw [TiVec.intoIterEnumeratedRev, List.getElem?_reverse hi', hlen]
  exact hfwd (v.len - 1 - i)

/-- C5 witness: on `[1, 2, 4]` under `FooId` (the crate documentation
example), enumerated iteration yields `[(FooId(0), 1), (FooId(1), 2),
(FooId(2), 4)]` and reverse enumerated iteration yields the same pairs in
reverse order, its first pair being `(FooId(2), 4)`. -/
theorem tivec_into_iter_enumerated_spec_witness :
    (TiVec.fromVec [1, 2, 4] : TiVec FooId Nat).intoIterEnumerated =
      [(⟨0⟩, 1), (⟨1⟩, 2), (⟨2⟩, 4)] ∧
    (TiVec.fromVec [1, 2, 4] : TiVec FooId Nat).intoIterEnumeratedRev =
      [(⟨2⟩, 4), (⟨1⟩, 2), (⟨0⟩, 1)] ∧
    (TiVec.fromVec [1, 2, 4] : TiVec FooId Nat).intoIterEnumeratedRev[0]? =
      some (⟨2⟩, 4) := by
  refine ⟨by decide, by decide, ?_⟩
  have h := (tivec_into_iter_enumerated_spec
    (TiVec.fromVec [1, 2, 4] : TiVec FooId Nat)).2.2 0 (by decide)
  rw [h]
  decide

/-- C6: for a vector of length `n` and an index whose position `p`
satisfies `p ≤ n`, `split_off` leaves the original holding exactly the
first `p` elements and returns a vector holding the elements formerly at
positions `[p, n)` in order, both with the same index type; when `p > n`
the operation fails. -/
theorem tivec_split_off_spec {K α : Type} [UsizeFromK K] (v : TiVec K α)
    (k : K) :
    (UsizeFromK.intoUsize k ≤ v.len →
      v.splitOff k =
        some (TiVec.fromVec (v.raw.take (UsizeFromK.intoUsize k)),
          TiVec.fromVec (v.raw.drop (UsizeFromK.intoUsize k))) ∧
      (v.raw.take (UsizeFromK.intoUsize k)).length = UsizeFromK.intoUsize k ∧
      (v.raw.drop (UsizeFromK.intoUsize k)).length = v.len - UsizeFromK.intoUsize k ∧
      (∀ j : Nat, j < UsizeFromK.intoUsize k →
        (v.raw.take (UsizeFromK.intoUsize k))[j]? = v.raw[j]?) ∧
      (∀ j : Nat, (v.raw.drop (UsizeFromK.intoUsize k))[j]? =
        v.raw[UsizeFromK.intoUsize k + j]?) ∧
      v.raw.take (UsizeFromK.intoUsize k) ++ v.raw.drop (UsizeFromK.intoUsize k) =
        v.raw) ∧
    (v.len < UsizeFromK.intoUsize k → v.splitOff k = none) := by
  constructor
  · intro h
    have h' : UsizeFromK.intoUsize k ≤ v.raw.length := h
    refine ⟨?_, ?_, ?_, ?_, ?_, List.take_append_drop _ _⟩
    · simp [TiVec.splitOff, Vec.splitOff, h', TiVec.fromVec]
    · simp [List.length_take]
      omega
    · simp [List.length_drop, TiVec.len]
    · intro j hj
      exact List.getElem?_take_of_lt hj
    · intro j
      exact List.getElem?_drop v.raw _ j
  · intro h
    have h' : ¬ (UsizeFromK.intoUsize k ≤ v.raw.length) := by
      have : v.raw.length < UsizeFromK.intoUsize k := h
      omega
    simp [TiVec.splitOff, Vec.splitOff, h']

/-- C6 witness: `split_off(FooId(1))` on `[10, 11, 12, 13]` yields the
original truncated to `[10]` and a new vector `[11, 12, 13]`. -/
theorem tivec_split_off_spec_witness :
    (TiVec.fromVec [10, 11, 12, 13] : TiVec FooId Nat).splitOff ⟨1⟩ =
      some (TiVec.fromVec ((TiVec.fromVec [10, 11, 12, 13] :
          TiVec FooId Nat).raw.take 1),
        TiVec.fromVec ((TiVec.fromVec [10, 11, 12, 13] :
          TiVec FooId Nat).raw.drop 1)) ∧
    (TiVec.fromVec [10, 11, 12, 13] : TiVec FooId Nat).splitOff ⟨1⟩ =
      some (TiVec.fromVec [10], TiVec.fromVec [11, 12, 13]) := by
  refine ⟨?_, by decide⟩
  exact ((tivec_split_off_spec (TiVec.fromVec [10, 11, 12, 13] :
    TiVec FooId Nat) ⟨1⟩).1 (by decide)).1

/-- C7: the range-bounds adapter maps a `K`-typed range to the half-open
plain-integer range whose unbounded start is position 0 and whose unbounded
end is the length supplied at the time of the call, each bounded endpoint
keeping its inclusive/exclusive kind; consequently `drain` and `splice`
over the fully unbounded range, which resolve the range once against the
length at call time, remove exactly the whole vector. -/
theorem ti_range_adapter_spec {K α : Type} [UsizeFromK K] (k k' : K)
    (len : Nat) (v : TiVec K α) (replaceWith : List α) :
    (TiRange.mk StartBound.unbounded EndBound.unbounded : TiRange K).intoRange len =
      (0, len) ∧
    (TiRange.mk (StartBound.included k) EndBound.unbounded).intoRange len =
      (UsizeFromK.intoUsize k, len) ∧
    (TiRange.mk StartBound.unbounded (EndBound.excluded k)).intoRange len =
      (0, UsizeFromK.intoUsize k) ∧
    (TiRange.mk StartBound.unbounded (EndBound.included k)).intoRange len =
      (0, UsizeFromK.intoUsize k + 1) ∧
    (TiRange.mk (StartBound.included k) (EndBound.excluded k')).intoRange len =
      (UsizeFromK.intoUsize k, UsizeFromK.intoUsize k') ∧
    (TiRange.mk (StartBound.included k) (EndBound.included k')).intoRange len =
      (UsizeFromK.intoUsize k, UsizeFromK.intoUsize k' + 1) ∧
    v.drain (TiRange.mk StartBound.unbounded EndBound.unbounded) =
      some (v.raw, TiVec.fromVec []) ∧
    v.splice (TiRange.mk StartBound.unbounded EndBound.unbounded) replaceWith =
      some (v.raw, TiVec.fromVec replaceWith) := by
  refine ⟨rfl, rfl, rfl, rfl, rfl, rfl, ?_, ?_⟩
  · simp [TiVec.drain, TiRange.intoRange, TiVec.len, TiVec.fromVec]
  · simp [TiVec.splice, TiRange.intoRange, TiVec.len, TiVec.fromVec]

/-- C8: the fallible reservation operation returns the host allocator
outcome as a result value: it succeeds exactly when the underlying
fallible-reservation primitive succeeds, and every allocation error is
propagated unchanged, never silently ignored. -/
theorem tivec_try_reserve_spec {K α : Type}
    (host : Nat → Except TryReserveError Unit) (v : TiVec K α)
    (additional : Nat) :
    (TiVec.tryReserve host v additional = Except.ok () ↔
      host (v.len + additional) = Except.ok ()) ∧
    (∀ e, host (v.len + additional) = Except.error e →
      TiVec.tryReserve host v additional = Except.error e) ∧
    (∀ e, TiVec.tryReserve host v additional = Except.error e →
      host (v.len + additional) = Except.error e) :=
  ⟨Iff.rfl, fun _ h => h, fun _ h => h⟩

/-- C8 witness: with a failing allocator `try_reserve` on `[1, 2]` surfaces
the allocation error as a result value, and with a succeeding allocator it
returns success. -/
theorem tivec_try_reserve_spec_witness :
    TiVec.tryReserve (fun _ => Except.error TryReserveError.allocError)
      (TiVec.fromVec [1, 2] : TiVec FooId Nat) 7 =
      Except.error TryReserveError.allocError ∧
    TiVec.tryReserve (fun _ => Except.ok ())
      (TiVec.fromVec [1, 2] : TiVec FooId Nat) 7 = Except.ok () := by
  constructor
  · exact (tivec_try_reserve_spec
      (fun _ => Except.error TryReserveError.allocError)
      (TiVec.fromVec [1, 2] : TiVec FooId Nat) 7).2.1
      TryReserveError.allocError rfl
  · exact (tivec_try_reserve_spec (fun _ => Except.ok ())
      (TiVec.fromVec [1, 2] : TiVec FooId Nat) 7).1.mpr rfl

/-- C9: `pop` on a non-empty vector returns the last element and decreases
the length by exactly one leaving all other elements unchanged; `pop` on an
empty vector returns `none` and leaves the vector unchanged. -/
theorem tivec_pop_spec {K α : Type} (v : TiVec K α) :
    (∀ h : v.raw ≠ [],
      (v.pop).1 = some (v.raw.getLast h) ∧
      (v.pop).2.len + 1 = v.len ∧
      (∀ j : Nat, j + 1 < v.len → (v.pop).2.raw[j]? = v.raw[j]?)) ∧
    (v.raw = [] → v.pop = (none, v)) := by
  obtain ⟨raw⟩ := v
  constructor
  · intro h
    have hpos : 0 < raw.length := List.length_pos.mpr h
    refine ⟨?_, ?_, ?_⟩
    · simp [TiVec.pop, Vec.pop, List.getLast?_eq_getLast _ h]
    · simp [TiVec.pop, Vec.pop, TiVec.len, List.length_dropLast]
      omega
    · intro j hj
      have hj' : j < raw.length - 1 := by
        have hlt : j + 1 < raw.length := hj
        omega
      show raw.dropLast[j]? = raw[j]?
      rw [List.dropLast_eq_take]
      exact List.getElem?_take_of_lt hj'
  · intro h
    subst h
    rfl

/-- C9 witness: `pop` on `[10, 11]` removes exactly one element, concretely
returning 11 and leaving `[10]`; `pop` on the empty vector returns `none`
and leaves it unchanged. -/
theorem tivec_pop_spec_witness :
    (TiVec.fromVec [10, 11] : TiVec FooId Nat).pop.2.len + 1 =
      (TiVec.fromVec [10, 11] : TiVec FooId Nat).len ∧
    (TiVec.fromVec ([] : List Nat) : TiVec FooId Nat).pop =
      (none, TiVec.fromVec ([] : List Nat)) ∧
    (TiVec.fromVec [10, 11] : TiVec FooId Nat).pop =
      (some 11, TiVec.fromVec [10]) := by
  refine ⟨?_, ?_, by decide⟩
  · exact ((tivec_pop_spec (TiVec.fromVec [10, 11] :
      TiVec FooId Nat)).1 (by decide)).2.1
  · exact (tivec_pop_spec (TiVec.fromVec ([] : List Nat) :
      TiVec FooId Nat)).2 rfl

/-- C10: `append` makes the first vector the concatenation of the old
first vector followed by the old second vector in order (the prior
elements unchanged in place, the moved elements following them), and
leaves the second vector empty. -/
theorem tivec_append_spec {K α : Type} (s o : TiVec K α) :
    (s.append o).1.raw = s.raw ++ o.raw ∧
    (s.append o).2.len = 0 ∧
    (s.append o).1.len = s.len + o.len ∧
    (∀ j : Nat, j < s.len → (s.append o).1.raw[j]? = s.raw[j]?) ∧
    (∀ j : Nat, (s.append o).1.raw[s.len + j]? = o.raw[j]?) := by
  refine ⟨rfl, rfl, ?_, ?_, ?_⟩
  · simp [TiVec.append, Vec.append, TiVec.len]
  · intro j hj
    show (s.raw ++ o.raw)[j]? = s.raw[j]?
    exact List.getElem?_append_left hj
  · intro j
    show (s.raw ++ o.raw)[s.raw.length + j]? = o.raw[j]?
    rw [List.getElem?_append_right (Nat.le_add_right s.raw.length j)]
    rw [Nat.add_sub_cancel_left]

/-- C10 witness: appending `[3]` to `[1, 2]` yields `[1, 2, 3]`, leaves the
argument empty, and keeps the old first element in place. -/
theorem tivec_append_spec_witness :
    ((TiVec.fromVec [1, 2] : TiVec FooId Nat).append (TiVec.fromVec [3])).1.raw =
      [1, 2, 3] ∧
    ((TiVec.fromVec [1, 2] : TiVec FooId Nat).append (TiVec.fromVec [3])).2.len = 0 ∧
    ((TiVec.fromVec [1, 2] : TiVec FooId Nat).append
      (TiVec.fromVec [3])).1.raw[0]? = some 1 := by
  obtain ⟨h1, h2, _, h4, _⟩ :=
    tivec_append_spec (TiVec.fromVec [1, 2] : TiVec FooId Nat) (TiVec.fromVec [3])
  refine ⟨by simpa using h1, h2, ?_⟩
  rw [h4 0 (by decide)]
  decide

end TypedIndexCollections
